import Mathlib

/-!
Shallow embedding of the JTAG protocol engine (`src/jtag.rs`) of the
`dap-rs` debug-probe firmware crate, together with proofs about it.

The hardware capability (`Jtag::sequence` / `Jtag::tms_sequence`) is
modelled as a deterministic `Device` that answers each data burst as a
function of the call history, plus an explicit trace of hardware calls
(`Event`s).  Machine-integer operations that can panic in Rust
(unsigned subtraction underflow, `u32` shifts by 32 or more) are
modelled with `checkedSub` / `checkedShl32` returning `Option`;
everything else uses `Nat` with explicit `% 2 ^ w` truncation where the
source relies on wrapping.
-/

namespace DapRs

/-- Describes a JTAG sequence request (`struct SequenceInfo`). -/
structure SequenceInfo where
  n_bits : Nat
  capture : Bool
  tms : Bool
deriving DecidableEq, Repr

def JTAG_SEQUENCE_TCK : Nat := 0x3F

def JTAG_SEQUENCE_TMS : Nat := 0x40

def JTAG_SEQUENCE_TDO : Nat := 0x80

/-- `impl From<u8> for SequenceInfo` (a byte in `[0, 256)` decodes to a value). -/
def SequenceInfo.fromByte (byte : Nat) : SequenceInfo :=
  let n_bits : Nat :=
    match byte &&& JTAG_SEQUENCE_TCK with
    | 0 => 64
    | n => n
  { n_bits := n_bits
    capture := (byte &&& JTAG_SEQUENCE_TDO) != 0
    tms := (byte &&& JTAG_SEQUENCE_TMS) != 0 }

/-- One call into the hardware capability: either a data burst
(`Jtag::sequence`, recording the descriptor and the TDI bytes handed to
the hardware) or a TMS navigation (`Jtag::tms_sequence`). -/
inductive Event where
  | seq (info : SequenceInfo) (tdi : List Nat)
  | tmsSeq (bits : List Bool)
deriving DecidableEq, Repr

/-- The external hardware capability: a deterministic device that, given
the call history so far, a burst descriptor and the TDI bytes, produces
the captured TDO byte. -/
structure Device where
  respond : List Event → SequenceInfo → List Nat → Nat

/-- Rust unsigned subtraction; `none` models the debug-build underflow panic. -/
def checkedSub (a b : Nat) : Option Nat :=
  if b ≤ a then some (a - b) else none

/-- Rust `u32` left shift; `none` models the panic on a shift amount of 32 or
more, otherwise the result is truncated to 32 bits. -/
def checkedShl32 (x n : Nat) : Option Nat :=
  if n < 32 then some ((x <<< n) % 2 ^ 32) else none

/-- `Jtag::tms_sequence`: drive a fixed TMS pattern (one hardware call). -/
def tms_sequence (tr : List Event) (tms : List Bool) : List Event :=
  tr ++ [Event.tmsSeq tms]

/-- `fn shift_tdi`: shift out at most 8 bits of one TDI byte, always
capturing; returns the grown trace and the captured TDO byte. -/
def shift_tdi (d : Device) (tr : List Event) (tdi clocks : Nat) (tms : Bool) :
    List Event × Nat :=
  let info : SequenceInfo := { n_bits := clocks, capture := true, tms := tms }
  (tr ++ [Event.seq info [tdi % 256]], d.respond tr info [tdi % 256] % 256)

/-- `fn shift_repeated_tdi`: chunk `clocks` clocks of a constant TDI byte
into bursts of at most 8 bits with constant TMS. -/
def shift_repeated_tdi (d : Device) (tr : List Event) (tdi clocks : Nat)
    (tms : Bool) : List Event :=
  if 0 < clocks then
    let n := min clocks 8
    shift_repeated_tdi d (shift_tdi d tr tdi n tms).1 tdi (clocks - n) tms
  else tr
termination_by clocks
decreasing_by omega

/-- The `while clocks > 1` loop of `fn shift_register_data`: shift all bits
but the last in bursts of at most 8, reassembling each captured byte at
offset `clock_cycles - bits` after right-shifting the accumulator.
`cc` is the loop-invariant `clock_cycles`; the state is
`(trace, data, captured_dr, clocks)`. -/
def shiftLoop (d : Device) (cc : Nat) (tr : List Event)
    (data captured clocks : Nat) : Option (List Event × Nat × Nat) :=
  if 1 < clocks then
    let bits := min (clocks - 1) 8
    let p := shift_tdi d tr data bits false
    match checkedSub cc bits with
    | none => none
    | some off =>
      match checkedShl32 p.2 off with
      | none => none
      | some merged =>
        shiftLoop d cc p.1 (data >>> bits)
          ((captured >>> bits ||| merged) % 2 ^ 32) (clocks - bits)
  else some (tr, data, captured)
termination_by clocks
decreasing_by omega

/-- `fn shift_register_data`: shift `clock_cycles` bits of `data`
LSB-first (TMS = 1 on the last bit iff `exit_shift`), returning the
reassembled captured word. -/
def shift_register_data (d : Device) (tr : List Event) (data clock_cycles : Nat)
    (exit_shift : Bool) : Option (List Event × Nat) :=
  match shiftLoop d clock_cycles tr data 0 clock_cycles with
  | none => none
  | some (tr1, data1, captured1) =>
    let p := shift_tdi d tr1 data1 1 exit_shift
    match checkedSub clock_cycles 1 with
    | none => none
    | some off =>
      match checkedShl32 p.2 off with
      | none => none
      | some merged => some (p.1, (captured1 >>> 1 ||| merged) % 2 ^ 32)

/-- `fn bypass_after_data`: bypass filler after the data bits; the last
filler bit exits the shift state with TMS = 1. -/
def bypass_after_data (d : Device) (tr : List Event) (bypass_after : Nat) :
    List Event :=
  if 0 < bypass_after then
    let tr1 :=
      if 1 < bypass_after then shift_repeated_tdi d tr 0xFF (bypass_after - 1) false
      else tr
    shift_repeated_tdi d tr1 0xFF 1 true
  else tr

/-- `struct TapConfig`: static per-TAP geometry. -/
structure TapConfig where
  ir_length : Nat
  ir_before : Nat
  ir_after : Nat
deriving DecidableEq, Repr

/-- `TapConfig::INIT`: empty value for array initialization. -/
def TapConfig.INIT : TapConfig :=
  { ir_length := 0, ir_before := 0, ir_after := 0 }

/-- `struct Config`: JTAG interface configuration.  The borrowed
fixed-length scan-chain buffer becomes a list whose length is the
capacity. -/
structure Config where
  device_count : Nat
  index : Nat
  scan_chain : List TapConfig
deriving DecidableEq, Repr

/-- `Config::new`: a new, empty JTAG interface configuration over the
given chain buffer. -/
def Config.new (chain_buffer : List TapConfig) : Config :=
  { device_count := 0, index := 0, scan_chain := chain_buffer }

/-- `Config::current_tap`: the TAP at the selected index; `none` models
the out-of-bounds indexing panic. -/
def Config.current_tap? (c : Config) : Option TapConfig :=
  c.scan_chain[c.index]?

/-- `Config::update_device_count`: reject counts that do not fit the
chain buffer. -/
def update_device_count (c : Config) (count : Nat) : Config × Bool :=
  if c.scan_chain.length ≤ count then (c, false)
  else ({ c with device_count := count }, true)

/-- `Config::select_index`: reject an index at or past `device_count`,
otherwise select it (writing only on change). -/
def select_index (c : Config) (index : Nat) : Config × Bool :=
  if c.device_count ≤ index then (c, false)
  else if index != c.index then ({ c with index := index }, true)
  else (c, true)

/-- The `Config` values reachable from `Config::new` via the two mutators. -/
inductive Reachable : Config → Prop
  | new (chain_buffer : List TapConfig) : Reachable (Config.new chain_buffer)
  | update (c : Config) (count : Nat) :
      Reachable c → Reachable (update_device_count c count).1
  | select (c : Config) (index : Nat) :
      Reachable c → Reachable (select_index c index).1

def IDLE_TO_SHIFT_DR : List Bool := [true, false, false]

def IDLE_TO_SHIFT_IR : List Bool := [true, true, false, false]

def SHIFT_TO_IDLE : List Bool := [true, true, false]

def EXIT1_TO_IDLE : List Bool := [true, false]

def JTAG_IR_ABORT : Nat := 0x08

def JTAG_IR_DPACC : Nat := 0x0A

def JTAG_IR_APACC : Nat := 0x0B

def JTAG_IR_IDCODE : Nat := 0x0E

def DAP_TRANSFER_OK_FAULT : Nat := 0x02

/-- Modelled from the spec: the read/write selector of the `swd` module
(whose source is not part of this excerpt).  The transfer descriptor
byte carries it in bit 1, and the DPACC/APACC address word is
`(a2a3 << 1) | r_nw`, so write maps to 0 and read to 1. -/
inductive RnW where
  | W
  | R
deriving DecidableEq, Repr

/-- Modelled from the spec: the numeric cast `r_nw as u32`. -/
def RnW.toNat : RnW → Nat
  | .W => 0
  | .R => 1

/-- `enum TransferResult`: the result of a single DAP JTAG transfer. -/
inductive TransferResult where
  | Ok (captured : Nat)
  | Wait
  | Fault
  | Mismatch
deriving DecidableEq, Repr

/-- `TransferResult::status`: one-hot wire status code. -/
def TransferResult.status : TransferResult → Nat
  | .Ok _ => 0x1
  | .Wait => 0x2
  | .Fault => 0x8
  | .Mismatch => 0x10

/-- Modelled from the spec: the `dap::TransferConfig` supplied by the
register-transfer dispatcher (not part of this excerpt); only its
`idle_cycles` field is consumed here. -/
structure TransferConfig where
  idle_cycles : Nat
deriving DecidableEq, Repr

/-- `fn transfer` (the internal free function): the data part of a
DPACC/APACC scan, from Idle back to Idle. -/
def transfer (d : Device) (tr : List Event) (cfg : Config) (r_nw : RnW)
    (a2a3 idle_cycles data : Nat) (check_ack : Bool) :
    Option (List Event × TransferResult) :=
  let tr1 := tms_sequence tr IDLE_TO_SHIFT_DR
  let bypass_bits_before := cfg.index
  match checkedSub cfg.device_count bypass_bits_before with
  | none => none
  | some t =>
    match checkedSub t 1 with
    | none => none
    | some bypass_bits_after =>
      let tr2 := shift_repeated_tdi d tr1 0xFF bypass_bits_before false
      match shift_register_data d tr2 (((a2a3 <<< 1) % 256) ||| r_nw.toNat) 3 false with
      | none => none
      | some (tr3, ack) =>
        let branch : Option (List Event × TransferResult) :=
          if ack = DAP_TRANSFER_OK_FAULT ∨ check_ack = false then
            match shift_register_data d tr3 data 32 (bypass_bits_after == 0) with
            | none => none
            | some (tr4, captured_dr) =>
              let tr5 := bypass_after_data d tr4 bypass_bits_after
              some (tms_sequence tr5 EXIT1_TO_IDLE, TransferResult.Ok captured_dr)
          else
            some (tms_sequence tr3 SHIFT_TO_IDLE, TransferResult.Wait)
        match branch with
        | none => none
        | some (trB, result) =>
          some (shift_repeated_tdi d trB 0xFF idle_cycles false, result)

/-- `Jtag::shift_ir`: shift out the instruction register, from Idle back
to Idle. -/
def shift_ir (d : Device) (tr : List Event) (cfg : Config) (ir : Nat) :
    Option (List Event) :=
  let tr1 := tms_sequence tr IDLE_TO_SHIFT_IR
  match cfg.current_tap? with
  | none => none
  | some tap =>
    let tr2 := shift_repeated_tdi d tr1 0xFF tap.ir_before false
    match shift_register_data d tr2 ir tap.ir_length (tap.ir_after == 0) with
    | none => none
    | some (tr3, _) =>
      let tr4 := bypass_after_data d tr3 tap.ir_after
      some (tms_sequence tr4 EXIT1_TO_IDLE)

/-- `Jtag::shift_dr`: shift out the data register, from Idle back to
Idle, returning the captured word. -/
def shift_dr (d : Device) (tr : List Event) (cfg : Config) (dr : Nat) :
    Option (List Event × Nat) :=
  let tr1 := tms_sequence tr IDLE_TO_SHIFT_DR
  let bypass_bits_before := cfg.index
  match checkedSub cfg.device_count bypass_bits_before with
  | none => none
  | some t =>
    match checkedSub t 1 with
    | none => none
    | some bypass_bits_after =>
      let tr2 := shift_repeated_tdi d tr1 0xFF bypass_bits_before false
      match shift_register_data d tr2 dr 32 (bypass_bits_after == 0) with
      | none => none
      | some (tr3, dr_out) =>
        let tr4 := bypass_after_data d tr3 bypass_bits_after
        some (tms_sequence tr4 EXIT1_TO_IDLE, dr_out)

/-- `Jtag::write_abort`: `transfer(W, 0, 8, data, check_ack = false)`. -/
def write_abort (d : Device) (tr : List Event) (cfg : Config) (data : Nat) :
    Option (List Event × TransferResult) :=
  transfer d tr cfg RnW.W 0 8 data false

/-- The public `Jtag::transfer` trait method: the internal `transfer`
with the dispatcher-supplied idle cycles and `check_ack = true`. -/
def Jtag.transfer (d : Device) (tr : List Event) (cfg : Config) (r_nw : RnW)
    (a2a3 : Nat) (transfer_config : TransferConfig) (data : Nat) :
    Option (List Event × TransferResult) :=
  DapRs.transfer d tr cfg r_nw a2a3 transfer_config.idle_cycles data true

/-- Modelled from the spec: the transport request cursor
(`dap::Request`, not part of this excerpt): `next_u8` pops the next
byte, `consume` drops bytes. -/
structure Request where
  data : List Nat
deriving DecidableEq, Repr

/-- Modelled from the spec: `Request::next_u8`. -/
def Request.next_u8 (r : Request) : Nat × Request :=
  (r.data.headD 0, ⟨r.data.tail⟩)

/-- Modelled from the spec: `Request::consume`. -/
def Request.consume (r : Request) (n : Nat) : Request :=
  ⟨r.data.drop n⟩

/-- Modelled from the spec: the response cursor
(`dap::ResponseWriter`, not part of this excerpt); `skip` advances it. -/
structure ResponseWriter where
  skipped : Nat
deriving DecidableEq, Repr

/-- Modelled from the spec: `ResponseWriter::skip`. -/
def ResponseWriter.skip (w : ResponseWriter) (n : Nat) : ResponseWriter :=
  ⟨w.skipped + n⟩

/-- The `for _ in 0..sequence_count` loop of `Jtag::sequences`. -/
def sequencesLoop (d : Device) :
    Nat → Request → ResponseWriter → List Event →
    Request × ResponseWriter × List Event
  | 0, req, resp, tr => (req, resp, tr)
  | count + 1, req, resp, tr =>
    let p := req.next_u8
    let sequence_info := SequenceInfo.fromByte p.1
    let n_bytes := (sequence_info.n_bits + 7) / 8
    let tr1 := tr ++ [Event.seq sequence_info (p.2.data.take n_bytes)]
    let req1 := p.2.consume n_bytes
    let resp1 := if sequence_info.capture then resp.skip n_bytes else resp
    sequencesLoop d count req1 resp1 tr1

/-- `Jtag::sequences`: read the one-byte count, then run that many
sequences. -/
def sequences (d : Device) (req : Request) (resp : ResponseWriter)
    (tr : List Event) : Request × ResponseWriter × List Event :=
  let p := req.next_u8
  sequencesLoop d p.1 p.2 resp tr

/-- Clocks contributed by one hardware call (TMS navigations drive the
clock too, but only data bursts count as data clocks). -/
def eventClocks : Event → Nat
  | .seq info _ => info.n_bits
  | .tmsSeq _ => 0

/-- Total data clocks of a trace. -/
def traceClocks (tr : List Event) : Nat :=
  (tr.map eventClocks).sum

/-- A device is a loopback when each burst's captured byte equals the
TDI byte masked to the burst's bit count (TDO echoes TDI). -/
def Loopback (d : Device) : Prop :=
  ∀ h info b, info.n_bits ≤ 8 → d.respond h info [b] = b % 2 ^ info.n_bits

/-- A concrete loopback device. -/
def loopbackDevice : Device :=
  { respond := fun _ info tdi => tdi.headD 0 % 2 ^ min info.n_bits 8 }

/-! ## Theorems -/

set_option maxRecDepth 8192

/-- Claim C7: for every byte `b`, `SequenceInfo.fromByte b` is total and
satisfies: `n_bits = 64` exactly when the low six bits of `b` are zero and
`n_bits = b &&& 0x3F` otherwise; `capture` is bit 7 of `b` and `tms` is
bit 6 of `b`. -/
theorem sequenceInfo_fromByte_decodes :
    ∀ b, b < 256 →
      (b &&& 0x3F = 0 → (SequenceInfo.fromByte b).n_bits = 64) ∧
      (b &&& 0x3F ≠ 0 → (SequenceInfo.fromByte b).n_bits = b &&& 0x3F) ∧
      (SequenceInfo.fromByte b).capture = b.testBit 7 ∧
      (SequenceInfo.fromByte b).tms = b.testBit 6 := by
  decide

/-- Witness for C7 at the concrete byte 0x88. -/
theorem sequenceInfo_fromByte_decodes_witness :
    (0x88 : Nat) < 256 ∧
      ((0x88 &&& 0x3F = 0 → (SequenceInfo.fromByte 0x88).n_bits = 64) ∧
       (0x88 &&& 0x3F ≠ 0 → (SequenceInfo.fromByte 0x88).n_bits = 0x88 &&& 0x3F) ∧
       (SequenceInfo.fromByte 0x88).capture = (0x88 : Nat).testBit 7 ∧
       (SequenceInfo.fromByte 0x88).tms = (0x88 : Nat).testBit 6) :=
  ⟨by decide, sequenceInfo_fromByte_decodes 0x88 (by decide)⟩

/-- Claim C5: `select_index i` with `i ≥ device_count` returns false and
leaves the whole `Config` unchanged; with `i < device_count` it returns
true and sets only the index to `i`; it is idempotent when `i` is already
selected. -/
theorem select_index_spec :
    ∀ (c : Config) (i : Nat),
      (c.device_count ≤ i → select_index c i = (c, false)) ∧
      (i < c.device_count → select_index c i = ({ c with index := i }, true)) ∧
      (i < c.device_count → i = c.index → select_index c i = (c, true)) := by
  intro c i
  refine ⟨fun h => ?_, fun h => ?_, fun h hi => ?_⟩
  · simp [select_index, h]
  · by_cases hi : i = c.index
    · subst hi
      simp [select_index, Nat.not_le.mpr h]
    · simp [select_index, Nat.not_le.mpr h, hi]
  · subst hi
    simp [select_index, Nat.not_le.mpr h]

/-- Witness for C5: rejecting an out-of-range index on a concrete config. -/
theorem select_index_spec_witness :
    (Config.mk 2 0 [TapConfig.INIT, TapConfig.INIT]).device_count ≤ 3 ∧
      select_index (Config.mk 2 0 [TapConfig.INIT, TapConfig.INIT]) 3 =
        (Config.mk 2 0 [TapConfig.INIT, TapConfig.INIT], false) :=
  ⟨by decide, (select_index_spec (Config.mk 2 0 [TapConfig.INIT, TapConfig.INIT]) 3).1 (by decide)⟩

/-- Claim C4 counterexample: the freshly constructed `Config` is reachable
and already violates `index < device_count`, since both fields are 0. -/
theorem config_invariant_counterexample :
    Reachable (Config.new [TapConfig.INIT]) ∧
      ¬((Config.new [TapConfig.INIT]).index <
          (Config.new [TapConfig.INIT]).device_count) :=
  ⟨Reachable.new _, by decide⟩

/-- Claim C4 (amended): for every reachable `Config`, `device_count` never
exceeds the scan-chain capacity (strictly below it after every successful
`update_device_count`), and `index < device_count` holds after every
successful `select_index`; the invariant `index < device_count` does not
hold at all times, failing already at construction where both are 0. -/
theorem config_invariants_amended :
    ∀ c : Config, Reachable c →
      c.device_count ≤ c.scan_chain.length ∧
      (∀ count, (update_device_count c count).2 = true →
        (update_device_count c count).1.device_count <
          (update_device_count c count).1.scan_chain.length) ∧
      (∀ i, (select_index c i).2 = true →
        (select_index c i).1.index < (select_index c i).1.device_count) := by
  intro c hc
  refine ⟨?_, fun count h => ?_, fun i h => ?_⟩
  · induction hc with
    | new chain_buffer => exact Nat.zero_le _
    | update c count _ ih =>
      unfold update_device_count
      split
      · exact ih
      · next hl => exact Nat.le_of_lt (Nat.lt_of_not_le hl)
    | select c index _ ih =>
      unfold select_index
      split
      · exact ih
      · split
        · exact ih
        · exact ih
  · by_cases hl : c.scan_chain.length ≤ count
    · simp [update_device_count, hl] at h
    · simp [update_device_count, hl]
      omega
  · by_cases hl : c.device_count ≤ i
    · simp [select_index, hl] at h
    · by_cases hi : i = c.index
      · subst hi
        simp [select_index, hl]
        omega
      · simp [select_index, hl, hi]
        omega

/-- Witness for C4 (amended) on a concrete reachable config. -/
theorem config_invariants_amended_witness :
    Reachable (Config.new [TapConfig.INIT, TapConfig.INIT]) ∧
      (Config.new [TapConfig.INIT, TapConfig.INIT]).device_count ≤
        (Config.new [TapConfig.INIT, TapConfig.INIT]).scan_chain.length :=
  ⟨Reachable.new _, (config_invariants_amended _ (Reachable.new _)).1⟩

/-- Claim C6: each loop iteration of `sequences` decodes one descriptor
byte, computes `byte_len = ceil(n_bits / 8)`, hands the next `byte_len`
TDI bytes to the hardware, advances the request cursor by `byte_len`
unconditionally and the response cursor by `byte_len` exactly when the
descriptor's capture bit is set; in the concrete scenario
`count = 2`, seq1 `{n_bits = 8, capture}` and seq2 `{n_bits = 4}`, the
response advances by exactly 1 byte and the whole request (2 descriptor
bytes plus 2 data bytes) is consumed. -/
theorem sequences_cursor_accounting :
    (∀ (d : Device) (count b : Nat) (rest : List Nat) (resp : ResponseWriter)
        (tr : List Event),
      sequencesLoop d (count + 1) ⟨b :: rest⟩ resp tr =
        sequencesLoop d count
          ⟨rest.drop (((SequenceInfo.fromByte b).n_bits + 7) / 8)⟩
          (if (SequenceInfo.fromByte b).capture then
            resp.skip (((SequenceInfo.fromByte b).n_bits + 7) / 8)
          else resp)
          (tr ++ [Event.seq (SequenceInfo.fromByte b)
            (rest.take (((SequenceInfo.fromByte b).n_bits + 7) / 8))])) ∧
    (∀ d : Device,
      (sequences d ⟨[2, 0x88, 0xAB, 0x04, 0x0F]⟩ ⟨0⟩ []).1 = ⟨[]⟩ ∧
      (sequences d ⟨[2, 0x88, 0xAB, 0x04, 0x0F]⟩ ⟨0⟩ []).2.1 = ⟨1⟩) := by
  constructor
  · intro d count b rest resp tr
    rfl
  · intro d
    exact ⟨rfl, rfl⟩

/-- Claim C10: whenever the internal `transfer` — and therefore the public
`Jtag.transfer` and `write_abort` — returns, the result is the `Ok`
variant or the `Wait` variant; `Fault` and `Mismatch` are never
constructed. -/
theorem transfer_only_ok_or_wait :
    (∀ d tr cfg r_nw a2a3 idle_cycles data check_ack,
      (transfer d tr cfg r_nw a2a3 idle_cycles data check_ack).elim True
        (fun p => (∃ x, p.2 = TransferResult.Ok x) ∨ p.2 = TransferResult.Wait)) ∧
    (∀ d tr cfg r_nw a2a3 transfer_config data,
      (Jtag.transfer d tr cfg r_nw a2a3 transfer_config data).elim True
        (fun p => (∃ x, p.2 = TransferResult.Ok x) ∨ p.2 = TransferResult.Wait)) ∧
    (∀ d tr cfg data,
      (write_abort d tr cfg data).elim True
        (fun p => (∃ x, p.2 = TransferResult.Ok x) ∨ p.2 = TransferResult.Wait)) := by
  have h1 : ∀ d tr cfg r_nw a2a3 idle_cycles data check_ack,
      (transfer d tr cfg r_nw a2a3 idle_cycles data check_ack).elim True
        (fun p => (∃ x, p.2 = TransferResult.Ok x) ∨ p.2 = TransferResult.Wait) := by
    intro d tr cfg r_nw a2a3 idle_cycles data check_ack
    simp only [transfer]
    repeat' split
    all_goals try (rename_i heq; repeat' split at heq)
    all_goals try (obtain ⟨-, rfl⟩ := heq)
    all_goals simp_all [Option.elim]
  exact ⟨h1, fun d tr cfg r_nw a2a3 tc data => h1 d tr cfg r_nw a2a3 tc.idle_cycles data true,
    fun d tr cfg data => h1 d tr cfg RnW.W 0 8 data false⟩

/-- Right shift distributes over bitwise or. -/
theorem or_shiftRight (x y k : Nat) : (x ||| y) >>> k = x >>> k ||| y >>> k :=
  Nat.eq_of_testBit_eq fun i => by simp

/-- Shifting left by `m` then right by `n ≤ m` shifts left by `m - n`. -/
theorem shiftLeft_shiftRight_of_le {m n : Nat} (x : Nat) (h : n ≤ m) :
    (x <<< m) >>> n = x <<< (m - n) :=
  Nat.eq_of_testBit_eq fun i => by
    simp only [Nat.testBit_shiftRight, Nat.testBit_shiftLeft, ge_iff_le]
    by_cases hm : m ≤ n + i
    · have h1 : m - n ≤ i := by omega
      have h2 : n + i - m = i - (m - n) := by omega
      simp [hm, h1, h2]
    · have h1 : ¬(m - n ≤ i) := by omega
      simp [hm, h1]

/-- Splitting the low `s` bits of a word at position `b`: the low `b` bits
at offset `e` or-ed with the next `s - b` bits at offset `e + b` equal the
low `s` bits at offset `e`. -/
theorem mod_shiftLeft_or_split (data b s e : Nat) (hbs : b ≤ s) :
    (data % 2 ^ b) <<< e ||| ((data >>> b) % 2 ^ (s - b)) <<< (e + b) =
      (data % 2 ^ s) <<< e :=
  Nat.eq_of_testBit_eq fun i => by
    simp only [Nat.testBit_or, Nat.testBit_shiftLeft, Nat.testBit_mod_two_pow,
      Nat.testBit_shiftRight, ge_iff_le]
    by_cases h1 : e ≤ i
    · by_cases h2 : i - e < b
      · have h3 : ¬(e + b ≤ i) := by omega
        have h4 : i - e < s := by omega
        simp [h1, h2, h3, h4]
      · by_cases h5 : e + b ≤ i
        · have h7 : b + (i - (e + b)) = i - e := by omega
          by_cases h8 : i - e < s
          · simp [h1, h2, h5, h7, h8, show i - (e + b) < s - b by omega]
          · simp [h1, h2, h5, h7, h8, show ¬(i - (e + b) < s - b) by omega]
        · omega
    · have h3 : ¬(e + b ≤ i) := by omega
      simp [h1, h3]

/-- The burst loop of `shift_register_data` never hits a checked-arithmetic
failure while `clocks ≤ clock_cycles ≤ 32`. -/
theorem shiftLoop_isSome :
    ∀ clocks (d : Device) (cc : Nat) (tr : List Event) (data captured : Nat),
      1 ≤ clocks → clocks ≤ cc → cc ≤ 32 →
      ∃ out, shiftLoop d cc tr data captured clocks = some out := by
  intro clocks
  induction clocks using Nat.strong_induction_on with
  | _ clocks ih =>
    intro d cc tr data captured h1 h2 h3
    by_cases hc : 1 < clocks
    · have hb1 : 1 ≤ min (clocks - 1) 8 := by omega
      have hb2 : min (clocks - 1) 8 ≤ clocks - 1 := by omega
      have hsub : checkedSub cc (min (clocks - 1) 8) =
          some (cc - min (clocks - 1) 8) := by
        unfold checkedSub
        rw [if_pos (by omega)]
      have hshl : checkedShl32 (shift_tdi d tr data (min (clocks - 1) 8) false).2
          (cc - min (clocks - 1) 8) =
          some (((shift_tdi d tr data (min (clocks - 1) 8) false).2 <<<
            (cc - min (clocks - 1) 8)) % 2 ^ 32) := by
        unfold checkedShl32
        rw [if_pos (by omega)]
      rw [shiftLoop]
      simp only [if_pos hc, hsub, hshl]
      exact ih (clocks - min (clocks - 1) 8) (by omega) d cc _ _ _ (by omega)
        (by omega) h3
    · rw [shiftLoop]
      rw [if_neg hc]
      exact ⟨_, rfl⟩

/-- Loop invariant of the burst loop under a loopback device: on exit the
remaining datum is `data >>> (clocks - 1)` and the accumulator holds the
first `clocks - 1` pending bits of `data` just above the already-captured
bits. -/
theorem shiftLoop_loopback :
    ∀ clocks (d : Device), Loopback d →
      ∀ (cc : Nat) (tr : List Event) (data captured : Nat),
      1 ≤ clocks → clocks ≤ cc → cc ≤ 32 → captured < 2 ^ 32 →
      ∃ tr', shiftLoop d cc tr data captured clocks =
        some (tr', data >>> (clocks - 1),
          captured >>> (clocks - 1) |||
            (data % 2 ^ (clocks - 1)) <<< (cc - clocks + 1)) := by
  intro clocks
  induction clocks using Nat.strong_induction_on with
  | _ clocks ih =>
    intro d hd cc tr data captured h1 h2 h3 hcap
    by_cases hc : 1 < clocks
    · have hb1 : 1 ≤ min (clocks - 1) 8 := by omega
      have hb2 : min (clocks - 1) 8 ≤ clocks - 1 := by omega
      have hb8 : min (clocks - 1) 8 ≤ 8 := by omega
      have hsub : checkedSub cc (min (clocks - 1) 8) =
          some (cc - min (clocks - 1) 8) := by
        unfold checkedSub
        rw [if_pos (by omega)]
      -- the captured byte of this burst is the datum masked to the burst size
      have hcb : (shift_tdi d tr data (min (clocks - 1) 8) false).2 =
          data % 2 ^ min (clocks - 1) 8 := by
        have hdvd : (2 : Nat) ^ min (clocks - 1) 8 ∣ 256 := by
          have : (256 : Nat) = 2 ^ 8 := by norm_num
          rw [this]
          exact pow_dvd_pow 2 hb8
        have hlt : data % 2 ^ min (clocks - 1) 8 < 256 := by
          calc data % 2 ^ min (clocks - 1) 8 < 2 ^ min (clocks - 1) 8 :=
                Nat.mod_lt _ (Nat.two_pow_pos _)
            _ ≤ 2 ^ 8 := Nat.pow_le_pow_right (by omega) hb8
            _ = 256 := by norm_num
        simp only [shift_tdi]
        rw [hd tr { n_bits := min (clocks - 1) 8, capture := true, tms := false }
          (data % 256) hb8]
        rw [Nat.mod_mod_of_dvd data hdvd]
        exact Nat.mod_eq_of_lt hlt
      have hmergedlt : (data % 2 ^ min (clocks - 1) 8) <<<
          (cc - min (clocks - 1) 8) < 2 ^ 32 := by
        rw [Nat.shiftLeft_eq]
        calc data % 2 ^ min (clocks - 1) 8 * 2 ^ (cc - min (clocks - 1) 8)
            < 2 ^ min (clocks - 1) 8 * 2 ^ (cc - min (clocks - 1) 8) :=
              (Nat.mul_lt_mul_right (Nat.two_pow_pos _)).mpr
                (Nat.mod_lt _ (Nat.two_pow_pos _))
          _ = 2 ^ (min (clocks - 1) 8 + (cc - min (clocks - 1) 8)) :=
              (pow_add 2 _ _).symm
          _ ≤ 2 ^ 32 := Nat.pow_le_pow_right (by omega) (by omega)
      have hshl : checkedShl32 (shift_tdi d tr data (min (clocks - 1) 8) false).2
          (cc - min (clocks - 1) 8) =
          some ((data % 2 ^ min (clocks - 1) 8) <<< (cc - min (clocks - 1) 8)) := by
        unfold checkedShl32
        rw [if_pos (by omega), hcb, Nat.mod_eq_of_lt hmergedlt]
      have hcaplt : captured >>> min (clocks - 1) 8 |||
          (data % 2 ^ min (clocks - 1) 8) <<< (cc - min (clocks - 1) 8) < 2 ^ 32 := by
        refine Nat.or_lt_two_pow ?_ hmergedlt
        calc captured >>> min (clocks - 1) 8 ≤ captured := by
              rw [Nat.shiftRight_eq_div_pow]
              exact Nat.div_le_self _ _
          _ < 2 ^ 32 := hcap
      obtain ⟨tr'', hrec⟩ := ih (clocks - min (clocks - 1) 8) (by omega) d hd cc
        (shift_tdi d tr data (min (clocks - 1) 8) false).1 (data >>> min (clocks - 1) 8)
        ((captured >>> min (clocks - 1) 8 |||
          (data % 2 ^ min (clocks - 1) 8) <<< (cc - min (clocks - 1) 8)) % 2 ^ 32)
        (by omega) (by omega) h3 (Nat.mod_lt _ (by norm_num))
      refine ⟨tr'', ?_⟩
      rw [shiftLoop]
      simp only [if_pos hc, hsub, hshl]
      rw [hrec, Nat.mod_eq_of_lt hcaplt]
      -- now reconcile the two expressions for the remaining datum and accumulator
      have hdata' : (data >>> min (clocks - 1) 8) >>>
          (clocks - min (clocks - 1) 8 - 1) = data >>> (clocks - 1) := by
        rw [← Nat.shiftRight_add]
        congr 1
        omega
      have hcap' : (captured >>> min (clocks - 1) 8 |||
            (data % 2 ^ min (clocks - 1) 8) <<< (cc - min (clocks - 1) 8)) >>>
              (clocks - min (clocks - 1) 8 - 1) |||
            ((data >>> min (clocks - 1) 8) % 2 ^ (clocks - min (clocks - 1) 8 - 1)) <<<
              (cc - (clocks - min (clocks - 1) 8) + 1) =
          captured >>> (clocks - 1) |||
            (data % 2 ^ (clocks - 1)) <<< (cc - clocks + 1) := by
        rw [or_shiftRight, ← Nat.shiftRight_add,
          shiftLeft_shiftRight_of_le _ (show clocks - min (clocks - 1) 8 - 1 ≤
            cc - min (clocks - 1) 8 by omega)]
        rw [show min (clocks - 1) 8 + (clocks - min (clocks - 1) 8 - 1) =
          clocks - 1 by omega]
        rw [show cc - min (clocks - 1) 8 - (clocks - min (clocks - 1) 8 - 1) =
          cc - clocks + 1 by omega]
        rw [show cc - (clocks - min (clocks - 1) 8) + 1 =
          cc - clocks + 1 + min (clocks - 1) 8 by omega]
        rw [show clocks - min (clocks - 1) 8 - 1 =
          clocks - 1 - min (clocks - 1) 8 by omega]
        rw [Nat.or_assoc, mod_shiftLeft_or_split data (min (clocks - 1) 8)
          (clocks - 1) (cc - clocks + 1) hb2]
      rw [hdata', hcap']
    · have hclocks : clocks = 1 := by omega
      subst hclocks
      refine ⟨tr, ?_⟩
      rw [shiftLoop]
      rw [if_neg hc]
      simp [Nat.shiftRight_zero, Nat.mod_one, Nat.zero_shiftLeft, Nat.or_zero]

/-- Claim C1: with a loopback hardware capability, `shift_register_data`
on any 32-bit `data` and `clock_cycles ∈ [1, 32]` reassembles exactly
`data` masked to the low `clock_cycles` bits, for either value of
`exit_shift`. -/
theorem shift_register_data_loopback_roundtrip (d : Device) (hd : Loopback d)
    (tr : List Event) (data clock_cycles : Nat) (exit_shift : Bool)
    (_hdata : data < 2 ^ 32) (h1 : 1 ≤ clock_cycles) (h2 : clock_cycles ≤ 32) :
    ∃ tr', shift_register_data d tr data clock_cycles exit_shift =
      some (tr', data % 2 ^ clock_cycles) := by
  obtain ⟨tr1, hloop⟩ := shiftLoop_loopback clock_cycles d hd clock_cycles tr data 0
    h1 le_rfl h2 (by norm_num)
  have hfin : (shift_tdi d tr1 (data >>> (clock_cycles - 1)) 1 exit_shift).2 =
      data >>> (clock_cycles - 1) % 2 := by
    have hdvd : (2 : Nat) ∣ 256 := by norm_num
    simp only [shift_tdi]
    rw [hd tr1 { n_bits := 1, capture := true, tms := exit_shift }
      (data >>> (clock_cycles - 1) % 256) (by norm_num)]
    rw [pow_one, Nat.mod_mod_of_dvd _ hdvd]
    exact Nat.mod_eq_of_lt (by omega)
  have hmergedlt : (data >>> (clock_cycles - 1) % 2) <<< (clock_cycles - 1) <
      2 ^ 32 := by
    rw [Nat.shiftLeft_eq]
    calc data >>> (clock_cycles - 1) % 2 * 2 ^ (clock_cycles - 1)
        < 2 * 2 ^ (clock_cycles - 1) :=
          (Nat.mul_lt_mul_right (Nat.two_pow_pos _)).mpr (Nat.mod_lt _ (by omega))
      _ = 2 ^ (1 + (clock_cycles - 1)) := by rw [pow_add, pow_one]
      _ ≤ 2 ^ 32 := Nat.pow_le_pow_right (by omega) (by omega)
  have hsub : checkedSub clock_cycles 1 = some (clock_cycles - 1) := by
    unfold checkedSub
    rw [if_pos h1]
  have hshl : checkedShl32 (shift_tdi d tr1 (data >>> (clock_cycles - 1)) 1
      exit_shift).2 (clock_cycles - 1) =
      some ((data >>> (clock_cycles - 1) % 2) <<< (clock_cycles - 1)) := by
    unfold checkedShl32
    rw [if_pos (by omega), hfin, Nat.mod_eq_of_lt hmergedlt]
  refine ⟨(shift_tdi d tr1 (data >>> (clock_cycles - 1)) 1 exit_shift).1, ?_⟩
  unfold shift_register_data
  rw [hloop]
  simp only [hsub, hshl]
  have hacc : (0 >>> (clock_cycles - 1) |||
      (data % 2 ^ (clock_cycles - 1)) <<< (clock_cycles - clock_cycles + 1)) >>> 1 =
      data % 2 ^ (clock_cycles - 1) := by
    rw [Nat.zero_shiftRight, Nat.zero_or, Nat.sub_self, Nat.zero_add]
    rw [shiftLeft_shiftRight_of_le _ le_rfl, Nat.sub_self, Nat.shiftLeft_zero]
  rw [hacc]
  have hmerge : data % 2 ^ (clock_cycles - 1) |||
      (data >>> (clock_cycles - 1) % 2) <<< (clock_cycles - 1) =
      data % 2 ^ clock_cycles := by
    have := mod_shiftLeft_or_split data (clock_cycles - 1) clock_cycles 0
      (by omega)
    rw [Nat.shiftLeft_zero, Nat.shiftLeft_zero, Nat.zero_add,
      show clock_cycles - (clock_cycles - 1) = 1 by omega, pow_one] at this
    exact this
  rw [hmerge]
  rw [Nat.mod_eq_of_lt]
  calc data % 2 ^ clock_cycles < 2 ^ clock_cycles := Nat.mod_lt _ (by positivity)
    _ ≤ 2 ^ 32 := Nat.pow_le_pow_right (by omega) h2

/-- The concrete loopback device echoes TDI masked to the burst size. -/
theorem loopbackDevice_loopback : Loopback loopbackDevice := by
  intro h info b hb
  simp [loopbackDevice, Nat.min_eq_left hb]

/-- Witness for C1 at `data = 0xDEADBEEF`, `clock_cycles = 32`. -/
theorem shift_register_data_loopback_roundtrip_witness :
    Loopback loopbackDevice ∧ (0xDEADBEEF : Nat) < 2 ^ 32 ∧ (1 : Nat) ≤ 32 ∧
      (32 : Nat) ≤ 32 ∧
      ∃ tr', shift_register_data loopbackDevice [] 0xDEADBEEF 32 false =
        some (tr', 0xDEADBEEF % 2 ^ 32) :=
  ⟨loopbackDevice_loopback, by norm_num, by norm_num, le_rfl,
    shift_register_data_loopback_roundtrip loopbackDevice loopbackDevice_loopback
      [] 0xDEADBEEF 32 false (by norm_num) (by norm_num) le_rfl⟩

/-- `shift_register_data` is defined exactly when `1 ≤ clock_cycles ≤ 32`:
below 1 the final-bit merge computes `clock_cycles - 1` and underflows,
above 32 the final merge shifts a `u32` by 32 or more. -/
theorem shift_register_data_isSome_iff (d : Device) (tr : List Event)
    (data cc : Nat) (es : Bool) :
    (shift_register_data d tr data cc es).isSome ↔ (1 ≤ cc ∧ cc ≤ 32) := by
  constructor
  · intro h
    by_contra hcon
    rw [Decidable.not_and_iff_or_not] at hcon
    rcases hcon with h0 | h33
    · have hcc : cc = 0 := by omega
      subst hcc
      unfold shift_register_data at h
      rw [shiftLoop] at h
      simp [checkedSub] at h
    · have h33' : 32 < cc := by omega
      unfold shift_register_data at h
      cases hsl : shiftLoop d cc tr data 0 cc with
      | none =>
        rw [hsl] at h
        simp at h
      | some out =>
        rw [hsl] at h
        obtain ⟨tr1, data1, captured1⟩ := out
        have hsub : checkedSub cc 1 = some (cc - 1) := by
          unfold checkedSub
          rw [if_pos (by omega)]
        have hshl : checkedShl32 (shift_tdi d tr1 data1 1 es).2 (cc - 1) = none := by
          unfold checkedShl32
          rw [if_neg (by omega)]
        simp only [hsub, hshl] at h
        simp at h
  · rintro ⟨h1, h2⟩
    obtain ⟨out, hsl⟩ := shiftLoop_isSome cc d cc tr data 0 h1 le_rfl h2
    obtain ⟨tr1, data1, captured1⟩ := out
    unfold shift_register_data
    rw [hsl]
    have hsub : checkedSub cc 1 = some (cc - 1) := by
      unfold checkedSub
      rw [if_pos h1]
    have hshl : checkedShl32 (shift_tdi d tr1 data1 1 es).2 (cc - 1) =
        some (((shift_tdi d tr1 data1 1 es).2 <<< (cc - 1)) % 2 ^ 32) := by
      unfold checkedShl32
      rw [if_pos (by omega)]
    simp only [hsub, hshl]
    rfl

/-- Claim C9: every checked subtraction and shift amount inside
`shift_register_data` stays in range exactly for `clock_cycles ∈ [1, 32]`;
at `clock_cycles = 0` the final-bit merge underflows, and `shift_ir` on a
TAP left at the uninitialized sentinel `ir_length = 0` reaches that
underflow. -/
theorem shift_register_data_domain :
    (∀ (d : Device) (tr : List Event) (data cc : Nat) (es : Bool),
      (shift_register_data d tr data cc es).isSome ↔ (1 ≤ cc ∧ cc ≤ 32)) ∧
    (∀ (d : Device) (tr : List Event) (ir : Nat),
      shift_ir d tr (Config.new [TapConfig.INIT]) ir = none) := by
  refine ⟨shift_register_data_isSome_iff, fun d tr ir => ?_⟩
  have h0 : shift_register_data d
      (shift_repeated_tdi d (tms_sequence tr IDLE_TO_SHIFT_IR) 0xFF
        TapConfig.INIT.ir_before false) ir TapConfig.INIT.ir_length
      (TapConfig.INIT.ir_after == 0) = none := by
    cases h : shift_register_data d
        (shift_repeated_tdi d (tms_sequence tr IDLE_TO_SHIFT_IR) 0xFF
          TapConfig.INIT.ir_before false) ir TapConfig.INIT.ir_length
        (TapConfig.INIT.ir_after == 0) with
    | none => rfl
    | some v =>
      have hs := (shift_register_data_isSome_iff d _ ir TapConfig.INIT.ir_length
        (TapConfig.INIT.ir_after == 0)).mp (by rw [h]; rfl)
      simp [TapConfig.INIT] at hs
  unfold shift_ir
  rw [show (Config.new [TapConfig.INIT]).current_tap? = some TapConfig.INIT
    from rfl]
  simp only [h0]

/-- Claim C8: `shift_dr` and the internal `transfer` compute the
bypass-after count as `device_count - index - 1` in unsigned arithmetic,
so they are defined exactly when `index < device_count` (which forces
`device_count ≥ 1`); on a freshly constructed `Config` the subtraction
underflows and the error branch is reached. -/
theorem bypass_after_underflow_domain :
    (∀ (d : Device) (tr : List Event) (cfg : Config) (dr : Nat),
      (shift_dr d tr cfg dr).isSome ↔ cfg.index < cfg.device_count) ∧
    (∀ (d : Device) (tr : List Event) (cfg : Config) (r_nw : RnW)
        (a2a3 idle_cycles data : Nat) (check_ack : Bool),
      (transfer d tr cfg r_nw a2a3 idle_cycles data check_ack).isSome ↔
        cfg.index < cfg.device_count) ∧
    (∀ (d : Device) (tr : List Event) (chain_buffer : List TapConfig) (dr : Nat),
      shift_dr d tr (Config.new chain_buffer) dr = none) := by
  have h1 : ∀ (d : Device) (tr : List Event) (cfg : Config) (dr : Nat),
      (shift_dr d tr cfg dr).isSome ↔ cfg.index < cfg.device_count := by
    intro d tr cfg dr
    by_cases hidx : cfg.index < cfg.device_count
    · unfold shift_dr
      have hsub1 : checkedSub cfg.device_count cfg.index =
          some (cfg.device_count - cfg.index) := by
        unfold checkedSub
        rw [if_pos (by omega)]
      have hsub2 : checkedSub (cfg.device_count - cfg.index) 1 =
          some (cfg.device_count - cfg.index - 1) := by
        unfold checkedSub
        rw [if_pos (by omega)]
      simp only [hsub1, hsub2]
      cases hsr : shift_register_data d
          (shift_repeated_tdi d (tms_sequence tr IDLE_TO_SHIFT_DR) 0xFF
            cfg.index false) dr 32 ((cfg.device_count - cfg.index - 1) == 0) with
      | none =>
        exfalso
        have := (shift_register_data_isSome_iff d
          (shift_repeated_tdi d (tms_sequence tr IDLE_TO_SHIFT_DR) 0xFF
            cfg.index false) dr 32
          ((cfg.device_count - cfg.index - 1) == 0)).mpr ⟨by omega, le_rfl⟩
        rw [hsr] at this
        simp at this
      | some p =>
        obtain ⟨tr3, dr_out⟩ := p
        simp [hidx]
    · unfold shift_dr
      by_cases hle : cfg.index ≤ cfg.device_count
      · have hsub1 : checkedSub cfg.device_count cfg.index = some 0 := by
          unfold checkedSub
          rw [if_pos hle]
          congr 1
          omega
        have hsub2 : checkedSub 0 1 = none := by decide
        simp only [hsub1, hsub2]
        simp [hidx]
      · have hsub1 : checkedSub cfg.device_count cfg.index = none := by
          unfold checkedSub
          rw [if_neg (by omega)]
        simp only [hsub1]
        simp [hidx]
  refine ⟨h1, fun d tr cfg r_nw a2a3 idle_cycles data check_ack => ?_,
    fun d tr chain_buffer dr => ?_⟩
  · by_cases hidx : cfg.index < cfg.device_count
    · unfold transfer
      have hsub1 : checkedSub cfg.device_count cfg.index =
          some (cfg.device_count - cfg.index) := by
        unfold checkedSub
        rw [if_pos (by omega)]
      have hsub2 : checkedSub (cfg.device_count - cfg.index) 1 =
          some (cfg.device_count - cfg.index - 1) := by
        unfold checkedSub
        rw [if_pos (by omega)]
      simp only [hsub1, hsub2]
      cases hack : shift_register_data d
          (shift_repeated_tdi d (tms_sequence tr IDLE_TO_SHIFT_DR) 0xFF
            cfg.index false) ((a2a3 <<< 1) % 256 ||| r_nw.toNat) 3 false with
      | none =>
        exfalso
        have := (shift_register_data_isSome_iff d
          (shift_repeated_tdi d (tms_sequence tr IDLE_TO_SHIFT_DR) 0xFF
            cfg.index false) ((a2a3 <<< 1) % 256 ||| r_nw.toNat) 3 false).mpr
          ⟨by omega, by omega⟩
        rw [hack] at this
        simp at this
      | some p =>
        obtain ⟨tr3, ack⟩ := p
        by_cases hok : ack = DAP_TRANSFER_OK_FAULT ∨ check_ack = false
        · cases hsr2 : shift_register_data d tr3 data 32
              ((cfg.device_count - cfg.index - 1) == 0) with
          | none =>
            exfalso
            have := (shift_register_data_isSome_iff d tr3 data 32
              ((cfg.device_count - cfg.index - 1) == 0)).mpr ⟨by omega, le_rfl⟩
            rw [hsr2] at this
            simp at this
          | some q =>
            obtain ⟨tr4, cap⟩ := q
            simp [hok, hsr2, hidx]
        · simp [hok, hidx]
    · unfold transfer
      by_cases hle : cfg.index ≤ cfg.device_count
      · have hsub1 : checkedSub cfg.device_count cfg.index = some 0 := by
          unfold checkedSub
          rw [if_pos hle]
          congr 1
          omega
        have hsub2 : checkedSub 0 1 = none := by decide
        simp only [hsub1, hsub2]
        simp [hidx]
      · have hsub1 : checkedSub cfg.device_count cfg.index = none := by
          unfold checkedSub
          rw [if_neg (by omega)]
        simp only [hsub1]
        simp [hidx]
  · have := h1 d tr (Config.new chain_buffer) dr
    cases h : shift_dr d tr (Config.new chain_buffer) dr with
    | none => rfl
    | some p =>
      rw [h] at this
      simp [Config.new] at this

/-- `shift_repeated_tdi` only appends data-burst events to the trace. -/
theorem shift_repeated_tdi_trace_extends :
    ∀ clocks (d : Device) (tr : List Event) (tdi : Nat) (tms : Bool),
      ∃ new, shift_repeated_tdi d tr tdi clocks tms = tr ++ new ∧
        ∀ e ∈ new, ∃ i t, e = Event.seq i t := by
  intro clocks
  induction clocks using Nat.strong_induction_on with
  | _ clocks ih =>
    intro d tr tdi tms
    by_cases hc : 0 < clocks
    · obtain ⟨new, hnew, hall⟩ := ih (clocks - min clocks 8) (by omega) d
        (shift_tdi d tr tdi (min clocks 8) tms).1 tdi tms
      refine ⟨[Event.seq { n_bits := min clocks 8, capture := true, tms := tms }
        [tdi % 256]] ++ new, ?_, ?_⟩
      · rw [shift_repeated_tdi, if_pos hc]
        simp only [hnew]
        simp [shift_tdi]
      · intro e he
        rcases List.mem_append.mp he with h' | h'
        · rw [List.mem_singleton] at h'
          exact ⟨_, _, h'⟩
        · exact hall e h'
    · rw [shift_repeated_tdi, if_neg hc]
      exact ⟨[], by simp, by simp⟩

/-- `shift_repeated_tdi` appends exactly `clocks` data clocks. -/
theorem traceClocks_shift_repeated_tdi :
    ∀ clocks (d : Device) (tr : List Event) (tdi : Nat) (tms : Bool),
      traceClocks (shift_repeated_tdi d tr tdi clocks tms) =
        traceClocks tr + clocks := by
  intro clocks
  induction clocks using Nat.strong_induction_on with
  | _ clocks ih =>
    intro d tr tdi tms
    by_cases hc : 0 < clocks
    · rw [shift_repeated_tdi, if_pos hc]
      rw [ih (clocks - min clocks 8) (by omega)]
      simp [shift_tdi, traceClocks, eventClocks]
      omega
    · rw [shift_repeated_tdi, if_neg hc]
      omega

/-- The burst loop only appends data-burst events to the trace. -/
theorem shiftLoop_trace_extends :
    ∀ clocks (d : Device) (cc : Nat) (tr : List Event) (data captured : Nat)
      (tr' : List Event) (rest : Nat × Nat),
      shiftLoop d cc tr data captured clocks = some (tr', rest) →
      ∃ new, tr' = tr ++ new ∧ ∀ e ∈ new, ∃ i t, e = Event.seq i t := by
  intro clocks
  induction clocks using Nat.strong_induction_on with
  | _ clocks ih =>
    intro d cc tr data captured tr' rest h
    by_cases hc : 1 < clocks
    · rw [shiftLoop, if_pos hc] at h
      cases h1 : checkedSub cc (min (clocks - 1) 8) with
      | none =>
        simp only [h1] at h
        exact Option.noConfusion h
      | some off =>
        simp only [h1] at h
        cases h2 : checkedShl32 (shift_tdi d tr data (min (clocks - 1) 8) false).2
            off with
        | none =>
          simp only [h2] at h
          exact Option.noConfusion h
        | some merged =>
          simp only [h2] at h
          obtain ⟨new, hnew, hall⟩ := ih (clocks - min (clocks - 1) 8) (by omega)
            d cc (shift_tdi d tr data (min (clocks - 1) 8) false).1
            (data >>> min (clocks - 1) 8)
            ((captured >>> min (clocks - 1) 8 ||| merged) % 2 ^ 32) tr' rest h
          refine ⟨[Event.seq (SequenceInfo.mk (min (clocks - 1) 8) true false)
            [data % 256]] ++ new, ?_, ?_⟩
          · rw [hnew]
            simp [shift_tdi, List.append_assoc]
          · intro e he
            rcases List.mem_append.mp he with h' | h'
            · rw [List.mem_singleton] at h'
              exact ⟨_, _, h'⟩
            · exact hall e h'
    · rw [shiftLoop, if_neg hc] at h
      simp only [Option.some.injEq, Prod.mk.injEq] at h
      refine ⟨[], ?_, by simp⟩
      rw [List.append_nil]
      exact h.1.symm

/-- `shift_register_data` only appends data-burst events to the trace. -/
theorem shift_register_data_trace_extends (d : Device) (tr : List Event)
    (data cc : Nat) (es : Bool) (tr' : List Event) (v : Nat)
    (h : shift_register_data d tr data cc es = some (tr', v)) :
    ∃ new, tr' = tr ++ new ∧ ∀ e ∈ new, ∃ i t, e = Event.seq i t := by
  unfold shift_register_data at h
  cases hsl : shiftLoop d cc tr data 0 cc with
  | none =>
    rw [hsl] at h
    exact Option.noConfusion h
  | some out =>
    obtain ⟨tr1, data1, captured1⟩ := out
    simp only [hsl] at h
    cases h1 : checkedSub cc 1 with
    | none =>
      simp only [h1] at h
      exact Option.noConfusion h
    | some off =>
      simp only [h1] at h
      cases h2 : checkedShl32 (shift_tdi d tr1 data1 1 es).2 off with
      | none =>
        simp only [h2] at h
        exact Option.noConfusion h
      | some merged =>
        simp only [h2, Option.some.injEq, Prod.mk.injEq] at h
        obtain ⟨new1, hnew1, hall1⟩ := shiftLoop_trace_extends cc d cc tr data 0
          tr1 (data1, captured1) hsl
        refine ⟨new1 ++ [Event.seq (SequenceInfo.mk 1 true es) [data1 % 256]],
          ?_, ?_⟩
        · have h3 : tr' = tr1 ++ [Event.seq (SequenceInfo.mk 1 true es)
              [data1 % 256]] := by
            rw [← h.1]
            simp [shift_tdi]
          rw [h3, hnew1, List.append_assoc]
        · intro e he
          rcases List.mem_append.mp he with h' | h'
          · exact hall1 e h'
          · rw [List.mem_singleton] at h'
            exact ⟨_, _, h'⟩

/-- Claim C2: in every completed call of the internal `transfer`, if the
captured 3-bit ack is `0b010` or `check_ack` is false, the 32 data bits
are shifted, bypass-after is applied, the TAP returns to Idle via Exit1
and the result is `Ok(captured)`; otherwise the TAP goes directly
Shift→Idle (TMS `[1,1,0]`, never emitting the Exit1→Idle navigation) and
the result is `Wait`; in both branches exactly `idle_cycles` extra filler
clocks are emitted last. -/
theorem transfer_ack_branches (d : Device) (tr : List Event) (cfg : Config)
    (r_nw : RnW) (a2a3 idle_cycles data : Nat) (check_ack : Bool)
    (hdc : cfg.index < cfg.device_count) :
    ∃ trA ack trPre tr' res,
      shift_register_data d
        (shift_repeated_tdi d (tms_sequence tr IDLE_TO_SHIFT_DR) 0xFF
          cfg.index false)
        (((a2a3 <<< 1) % 256) ||| r_nw.toNat) 3 false = some (trA, ack) ∧
      transfer d tr cfg r_nw a2a3 idle_cycles data check_ack =
        some (tr', res) ∧
      tr' = shift_repeated_tdi d trPre 0xFF idle_cycles false ∧
      traceClocks tr' = traceClocks trPre + idle_cycles ∧
      ((ack = DAP_TRANSFER_OK_FAULT ∨ check_ack = false) →
        ∃ trB cap,
          shift_register_data d trA data 32
            ((cfg.device_count - cfg.index - 1) == 0) = some (trB, cap) ∧
          res = TransferResult.Ok cap ∧
          trPre = tms_sequence
            (bypass_after_data d trB (cfg.device_count - cfg.index - 1))
            EXIT1_TO_IDLE) ∧
      (¬(ack = DAP_TRANSFER_OK_FAULT ∨ check_ack = false) →
        res = TransferResult.Wait ∧
        trPre = tms_sequence trA SHIFT_TO_IDLE ∧
        Event.tmsSeq EXIT1_TO_IDLE ∉ tr'.drop tr.length) := by
  have hsub1 : checkedSub cfg.device_count cfg.index =
      some (cfg.device_count - cfg.index) := by
    unfold checkedSub
    rw [if_pos (by omega)]
  have hsub2 : checkedSub (cfg.device_count - cfg.index) 1 =
      some (cfg.device_count - cfg.index - 1) := by
    unfold checkedSub
    rw [if_pos (by omega)]
  cases hack : shift_register_data d
      (shift_repeated_tdi d (tms_sequence tr IDLE_TO_SHIFT_DR) 0xFF
        cfg.index false)
      (((a2a3 <<< 1) % 256) ||| r_nw.toNat) 3 false with
  | none =>
    exfalso
    have := (shift_register_data_isSome_iff d
      (shift_repeated_tdi d (tms_sequence tr IDLE_TO_SHIFT_DR) 0xFF
        cfg.index false)
      (((a2a3 <<< 1) % 256) ||| r_nw.toNat) 3 false).mpr ⟨by omega, by omega⟩
    rw [hack] at this
    simp at this
  | some p =>
    obtain ⟨trA, ack⟩ := p
    by_cases hok : ack = DAP_TRANSFER_OK_FAULT ∨ check_ack = false
    · cases hsr2 : shift_register_data d trA data 32
          ((cfg.device_count - cfg.index - 1) == 0) with
      | none =>
        exfalso
        have := (shift_register_data_isSome_iff d trA data 32
          ((cfg.device_count - cfg.index - 1) == 0)).mpr ⟨by omega, le_rfl⟩
        rw [hsr2] at this
        simp at this
      | some q =>
        obtain ⟨trB, cap⟩ := q
        refine ⟨trA, ack,
          tms_sequence (bypass_after_data d trB
            (cfg.device_count - cfg.index - 1)) EXIT1_TO_IDLE,
          _, TransferResult.Ok cap, rfl, ?_, rfl,
          traceClocks_shift_repeated_tdi idle_cycles d _ 0xFF false,
          fun _ => ⟨trB, cap, hsr2, rfl, rfl⟩, fun hcon => absurd hok hcon⟩
        unfold transfer
        simp only [hsub1, hsub2, hack]
        rw [if_pos hok]
        simp only [hsr2]
    · refine ⟨trA, ack, tms_sequence trA SHIFT_TO_IDLE, _, TransferResult.Wait,
        rfl, ?_, rfl,
        traceClocks_shift_repeated_tdi idle_cycles d _ 0xFF false,
        fun hcon => absurd hcon hok, fun _ => ⟨rfl, rfl, ?_⟩⟩
      · unfold transfer
        simp only [hsub1, hsub2, hack]
        rw [if_neg hok]
      · obtain ⟨new2, hnew2, hall2⟩ := shift_repeated_tdi_trace_extends
          cfg.index d (tms_sequence tr IDLE_TO_SHIFT_DR) 0xFF false
        obtain ⟨newA, hnewA, hallA⟩ := shift_register_data_trace_extends d
          (shift_repeated_tdi d (tms_sequence tr IDLE_TO_SHIFT_DR) 0xFF
            cfg.index false)
          (((a2a3 <<< 1) % 256) ||| r_nw.toNat) 3 false trA ack hack
        obtain ⟨new3, hnew3, hall3⟩ := shift_repeated_tdi_trace_extends
          idle_cycles d (tms_sequence trA SHIFT_TO_IDLE) 0xFF false
        rw [hnew3]
        have hdecomp : tms_sequence trA SHIFT_TO_IDLE ++ new3 =
            tr ++ ([Event.tmsSeq IDLE_TO_SHIFT_DR] ++ (new2 ++ (newA ++
              ([Event.tmsSeq SHIFT_TO_IDLE] ++ new3)))) := by
          conv_lhs => rw [tms_sequence, hnewA, hnew2]
          simp [tms_sequence, List.append_assoc]
        rw [hdecomp, List.drop_left]
        intro hmem
        simp only [List.mem_append, List.mem_singleton] at hmem
        rcases hmem with h' | ⟨h' | ⟨h' | ⟨h' | h'⟩⟩⟩
        · simp [EXIT1_TO_IDLE, IDLE_TO_SHIFT_DR] at h'
        · obtain ⟨i, t, he⟩ := hall2 _ h'
          exact Event.noConfusion he
        · obtain ⟨i, t, he⟩ := hallA _ h'
          exact Event.noConfusion he
        · simp [EXIT1_TO_IDLE, SHIFT_TO_IDLE] at h'
        · obtain ⟨i, t, he⟩ := hall3 _ h'
          exact Event.noConfusion he

/-- Witness for C2 on a one-TAP chain with a loopback device: the DPACC
read address `(1 << 1) | 0` echoes back ack `0b010`, taking the Ok path. -/
theorem transfer_ack_branches_witness :
    (Config.mk 1 0 [TapConfig.INIT]).index <
      (Config.mk 1 0 [TapConfig.INIT]).device_count ∧
    ∃ trA ack trPre tr' res,
      shift_register_data loopbackDevice
        (shift_repeated_tdi loopbackDevice (tms_sequence [] IDLE_TO_SHIFT_DR)
          0xFF (Config.mk 1 0 [TapConfig.INIT]).index false)
        (((1 <<< 1) % 256) ||| RnW.W.toNat) 3 false = some (trA, ack) ∧
      transfer loopbackDevice [] (Config.mk 1 0 [TapConfig.INIT]) RnW.W 1 0 5
        true = some (tr', res) ∧
      tr' = shift_repeated_tdi loopbackDevice trPre 0xFF 0 false ∧
      traceClocks tr' = traceClocks trPre + 0 ∧
      ((ack = DAP_TRANSFER_OK_FAULT ∨ true = false) →
        ∃ trB cap,
          shift_register_data loopbackDevice trA 5 32
            (((Config.mk 1 0 [TapConfig.INIT]).device_count -
              (Config.mk 1 0 [TapConfig.INIT]).index - 1) == 0) =
            some (trB, cap) ∧
          res = TransferResult.Ok cap ∧
          trPre = tms_sequence
            (bypass_after_data loopbackDevice trB
              ((Config.mk 1 0 [TapConfig.INIT]).device_count -
                (Config.mk 1 0 [TapConfig.INIT]).index - 1))
            EXIT1_TO_IDLE) ∧
      (¬(ack = DAP_TRANSFER_OK_FAULT ∨ true = false) →
        res = TransferResult.Wait ∧
        trPre = tms_sequence trA SHIFT_TO_IDLE ∧
        Event.tmsSeq EXIT1_TO_IDLE ∉ tr'.drop ([] : List Event).length) :=
  ⟨by decide, transfer_ack_branches loopbackDevice [] (Config.mk 1 0 [TapConfig.INIT])
    RnW.W 1 0 5 true (by decide)⟩

/-- Claim C3 counterexample: in the stated configuration
(`device_count = 3, index = 1`, current TAP `ir_length = 4, ir_before = 0,
ir_after = 0`), `shift_ir(0xA)` emits no bypass bits at all — the code
takes the IR bypass counts from the TAP's `ir_before`/`ir_after` fields,
which the scenario sets to 0, not from `device_count`/`index` — so only
the 4 IR bits are clocked between the two TMS navigations, not the
claimed `device_count - 1 + ir_length = 6`. -/
theorem shift_ir_scenario_counterexample :
    shift_ir loopbackDevice []
      (Config.mk 3 1 [TapConfig.INIT, TapConfig.mk 4 0 0, TapConfig.INIT])
      0xA =
      some ([Event.tmsSeq IDLE_TO_SHIFT_IR] ++
        [Event.seq (SequenceInfo.mk 3 true false) [0xA],
         Event.seq (SequenceInfo.mk 1 true true) [1]] ++
        [Event.tmsSeq EXIT1_TO_IDLE]) ∧
    traceClocks [Event.seq (SequenceInfo.mk 3 true false) [0xA],
      Event.seq (SequenceInfo.mk 1 true true) [1]] = 4 ∧
    (4 : Nat) ≠ 3 - 1 + 4 := by
  refine ⟨?_, by simp [traceClocks, eventClocks], by norm_num⟩
  simp [shift_ir, shift_register_data, shiftLoop, shift_repeated_tdi, shift_tdi,
    bypass_after_data, tms_sequence, Config.current_tap?, checkedSub,
    checkedShl32, loopbackDevice, TapConfig.INIT, IDLE_TO_SHIFT_IR,
    EXIT1_TO_IDLE]

/-- Claim C3 (amended): with the per-TAP geometry that `shift_ir` actually
consumes set to one bypass bit on each side (`ir_before = 1, ir_after = 1`,
as discovery would populate for two 1-bit neighbours), and
`device_count = 3, index = 1, ir_length = 4`, `shift_ir(0xA)` emits on the
wire exactly 1 bypass bit, then the 4 bits of `0xA`, then 1 bypass bit
between the Idle→Shift-IR and Exit1→Idle navigations — a total of
`device_count - 1 + ir_length = 6` data clocks. -/
theorem shift_ir_scenario_amended :
    ∀ d : Device,
      shift_ir d []
        (Config.mk 3 1 [TapConfig.INIT, TapConfig.mk 4 1 1, TapConfig.INIT])
        0xA =
        some ([Event.tmsSeq IDLE_TO_SHIFT_IR] ++
          [Event.seq (SequenceInfo.mk 1 true false) [0xFF],
           Event.seq (SequenceInfo.mk 3 true false) [0xA],
           Event.seq (SequenceInfo.mk 1 true false) [1],
           Event.seq (SequenceInfo.mk 1 true true) [0xFF]] ++
          [Event.tmsSeq EXIT1_TO_IDLE]) ∧
      traceClocks [Event.seq (SequenceInfo.mk 1 true false) [0xFF],
        Event.seq (SequenceInfo.mk 3 true false) [0xA],
        Event.seq (SequenceInfo.mk 1 true false) [1],
        Event.seq (SequenceInfo.mk 1 true true) [0xFF]] = 3 - 1 + 4 := by
  intro d
  refine ⟨?_, by simp [traceClocks, eventClocks]⟩
  simp [shift_ir, shift_register_data, shiftLoop, shift_repeated_tdi, shift_tdi,
    bypass_after_data, tms_sequence, Config.current_tap?, checkedSub,
    checkedShl32, TapConfig.INIT, IDLE_TO_SHIFT_IR, EXIT1_TO_IDLE]

end DapRs
